import Mathlib

/-!
Verification development for `add_doe_content_template.py`
(PowerpediaInterns/add-doe-content-template).

The script scans wiki pages for DOE section headers and inserts a
placeholder template into empty DOE sections.  We embed the pure parts of
the program: the header regex `^(=+)([^=]*)(=+)[ ]?$` (`title_search`),
the detectors `_detect_general_title` / `_detect_doe_header`, the
line-scanning state machine of `main_function`, the insertion application,
and the bookmark computation of `run`.
-/

namespace DoeBot

/-! ## Python string primitives -/

/-- Characters stripped by Python `str.strip()` (the ASCII whitespace
subset, which is all that the program's data can contain around header
names). -/
def isPySpace (c : Char) : Bool :=
  c = ' ' ∨ c = '\t' ∨ c = '\n' ∨ c = '\r' ∨ c = '\x0b' ∨ c = '\x0c'

/-- Python `s.strip()` on a list of characters. -/
def pyStrip (s : List Char) : List Char :=
  ((s.dropWhile isPySpace).reverse.dropWhile isPySpace).reverse

/-- Python `str.lower()` restricted to ASCII letters (the recognized DOE
names are pure ASCII, so only ASCII case folding can influence the
membership test in `_detect_doe_header`). -/
def asciiLower (c : Char) : Char :=
  if 'A' ≤ c ∧ c ≤ 'Z' then Char.ofNat (c.toNat + 32) else c

/-- Python `s.lower()` on a list of characters. -/
def pyLower (s : List Char) : List Char := s.map asciiLower

/-- Python `s[k:-k]` for `k ≥ 1`: the characters from position `k` up to
(but excluding) position `len - k`; empty when `len ≤ 2*k`. -/
def pySliceSym (s : List Char) (k : Nat) : List Char :=
  (s.take (s.length - k)).drop k

/-- Python `list.insert(i, x)` for a non-negative index `i`: inserts `x`
before position `i`, appending at the end when `i ≥ len`. -/
def pyInsert {α : Type} (i : Nat) (x : α) (l : List α) : List α :=
  l.take i ++ x :: l.drop i

/-! ## The `title_search` regex

`title_search = re.compile(r"^(=+)([^=]*)(=+)[ ]?$")`, used with
`.search` on single lines (which contain no newline, so `^`/`$` anchor
the whole line).  A line matches iff it decomposes as
`'='*a ++ mid ++ '='*b ++ sp` with `a, b ≥ 1`, `mid` free of `'='`, and
`sp` empty or a single space: the optional `[ ]?` must consume a final
space when one is present (nothing after it may precede `$`), and any
`'='` between the two runs, or any further trailing character, makes the
match fail (backtracking cannot help, since `[^=]*` can never cross an
`'='` and `(=+)` can never cross a non-`'='`).

Group values under the leftmost-greedy semantics of Python `re`:
* when the line (minus an optional final space) is not all `'='`,
  `group(1)` is the full leading `'='` run and `group(3)` the full
  trailing `'='` run (greedy `[^=]*` stops exactly at the trailing run);
* when it is all `'='` (length `n ≥ 2`), `(=+)` backtracks one step, so
  `group(1)` has length `n - 1`, `group(2)` is empty and `group(3)` is a
  single `'='`.
`group(0)` is always the entire line, including the trailing space. -/

/-- Length of the leading run of `'='` characters. -/
def leadEqRun : List Char → Nat
  | [] => 0
  | c :: cs => if c = '=' then leadEqRun cs + 1 else 0

/-- Length of the trailing run of `'='` characters. -/
def trailEqRun (s : List Char) : Nat := leadEqRun s.reverse

/-- The line minus the single trailing space consumed by `[ ]?`, if any. -/
def stripTrailSpace (s : List Char) : List Char :=
  if s.getLast? = some ' ' then s.dropLast else s

/-- Matching of `(=+)([^=]*)(=+)` against the line minus the optional
trailing space: `none` when there is no match, otherwise `some (g1, g3)`
with the lengths of capture groups 1 and 3. -/
def coreGroups (core : List Char) : Option (Nat × Nat) :=
  let a := leadEqRun core
  if a = 0 then none
  else if a = core.length then
    -- the whole core is '='s: match iff at least two of them
    if 2 ≤ core.length then some (a - 1, 1) else none
  else
    let t := core.drop a
    let b := trailEqRun t
    if b = 0 then none
    else if (t.take (t.length - b)).all (fun c => c != '=') then
      some (a, b)
    else none

/-- Matching of `title_search` against a full line: `none` when the regex
does not match, otherwise `some (g1, g3)` with the lengths of capture
groups 1 and 3 (the only data of the match that the program uses besides
`group(0)`, which is the line itself). -/
def titleGroups (s : List Char) : Option (Nat × Nat) :=
  coreGroups (stripTrailSpace s)

/-- `_detect_general_title`: the line matches `title_search`. -/
def detect_general_title (line : String) : Bool :=
  (titleGroups line.data).isSome

/-- `doe_titles = {'topic at doe', 'doe relevance'}`. -/
def doe_titles : List (List Char) :=
  ["topic at doe".data, "doe relevance".data]

/-- `_detect_doe_header`: match the line against `title_search`; with
`true_level = min(len(group(1)), len(group(3)))`, slice
`group(0)[true_level:-true_level]` (note: `group(0)` is the whole line,
trailing space included), strip, lower, and test membership in
`doe_titles`. -/
def detect_doe_header (line : String) : Bool :=
  match titleGroups line.data with
  | none => false
  | some (g1, g3) =>
      doe_titles.contains
        (pyLower (pyStrip (pySliceSym line.data (min g1 g3))))

/-! ## The scanning state machine of `main_function` -/

/-- `TEMPLATE_STR = "{{DOE content needed}}"`. -/
def TEMPLATE_STR : String := "\x7b\x7bDOE content needed\x7d\x7d"

/-- The line loop of `main_function`, started at line index `i` with state
`in_doe_header = inSec`, `this_section_has_content = hasContent`; returns
`lines_to_insert`.  Note the source has no transition setting
`in_doe_header` back to `False`: on a non-DOE title the state is kept
unchanged. -/
def scanAux : List String → Nat → Bool → Bool → List Nat
  | [], _, _, _ => []
  | line :: rest, i, inSec, hasContent =>
    if inSec then
      if detect_general_title line then
        if hasContent then
          (if detect_doe_header line then scanAux rest (i + 1) true false
           else scanAux rest (i + 1) inSec hasContent)
        else
          i :: (if detect_doe_header line then scanAux rest (i + 1) true false
                else scanAux rest (i + 1) inSec hasContent)
      else
        if 0 < (pyStrip line.data).length then scanAux rest (i + 1) inSec true
        else scanAux rest (i + 1) inSec hasContent
    else
      if detect_doe_header line then scanAux rest (i + 1) true false
      else scanAux rest (i + 1) inSec hasContent

/-- The insertion plan (`lines_to_insert`) computed by `main_function` for
a page given as its list of lines. -/
def scanLines (lines : List String) : List Nat :=
  scanAux lines 0 false false

/-- The insertion loop of `main_function`: `templates_inserted` starts at
`k` and the plan is applied left to right with
`page_lines.insert(line_no + templates_inserted, TEMPLATE_STR)`. -/
def applyPlanAux : List Nat → Nat → List String → List String
  | [], _, acc => acc
  | idx :: rest, k, acc =>
      applyPlanAux rest (k + 1) (pyInsert (idx + k) TEMPLATE_STR acc)

/-- Application of an insertion plan to the page lines, as in the source. -/
def applyPlan (plan : List Nat) (lines : List String) : List String :=
  applyPlanAux plan 0 lines

/-- Modelled from the spec: the alternative insertion procedure of §4.3,
"inserting into a copy of the original sequence from lowest index to
highest while re-reading current length each time" — each insertion goes
at `idx + (current length - original length)`, the length difference
re-read from the growing copy. -/
def applyPlanSpecAux : List Nat → Nat → List String → List String
  | [], _, acc => acc
  | idx :: rest, origLen, acc =>
      applyPlanSpecAux rest origLen
        (pyInsert (idx + (acc.length - origLen)) TEMPLATE_STR acc)

/-- Modelled from the spec: apply the plan by re-reading lengths. -/
def applyPlanSpec (plan : List Nat) (lines : List String) : List String :=
  applyPlanSpecAux plan lines.length lines

/-- The pure content of `main_function` on a page's lines: `none` when no
insertion point was found (no save, text untouched), otherwise the new
page lines together with the fixed change comment passed to `save`. -/
def main_function (page_lines : List String) : Option (List String × String) :=
  let plan := scanLines page_lines
  if plan.isEmpty then none
  else some (applyPlan plan page_lines, "Inserted the DOE content needed template.")

/-! ## The bookmark computation of `run` -/

/-- `PAGES_TO_GO_THROUGH = 25`. -/
def PAGES_TO_GO_THROUGH : Nat := 25

/-- `last_page_seen` after the page loop of `run`: starts as `""` and is
overwritten with each page title in order. -/
def lastSeen (titles : List String) : String :=
  titles.foldl (fun _ t => t) ""

/-- The bookmark stored by `run` after a batch, as a function of the list
of titles returned by `pages_from`. -/
def runBookmark (titles : List String) : String :=
  if titles.length < PAGES_TO_GO_THROUGH then "" else lastSeen titles

/-! ## Helper lemmas about the leading and trailing `'='` runs -/

theorem leadEqRun_replicate_append (a : Nat) (t : List Char) :
    leadEqRun (List.replicate a '=' ++ t) = a + leadEqRun t := by
  induction a with
  | zero => simp
  | succ n ih =>
      rw [List.replicate_succ, List.cons_append]
      simp [leadEqRun, ih]
      omega

theorem leadEqRun_le_length (s : List Char) : leadEqRun s ≤ s.length := by
  induction s with
  | nil => simp [leadEqRun]
  | cons c cs ih =>
      simp only [leadEqRun, List.length_cons]
      split
      · omega
      · omega

theorem eq_replicate_of_leadEqRun_eq_length (s : List Char)
    (h : leadEqRun s = s.length) : s = List.replicate s.length '=' := by
  induction s with
  | nil => simp
  | cons c cs ih =>
      simp only [leadEqRun, List.length_cons] at h
      by_cases hc : c = '='
      · rw [if_pos hc] at h
        have hcs : leadEqRun cs = cs.length := by omega
        subst hc
        rw [List.length_cons, List.replicate_succ]
        exact congrArg (List.cons '=') (ih hcs)
      · rw [if_neg hc] at h
        omega

theorem replicate_append_drop_leadEqRun (s : List Char) :
    s = List.replicate (leadEqRun s) '=' ++ s.drop (leadEqRun s) := by
  induction s with
  | nil => simp [leadEqRun]
  | cons c cs ih =>
      by_cases hc : c = '='
      · subst hc
        have h1 : leadEqRun ('=' :: cs) = leadEqRun cs + 1 := by simp [leadEqRun]
        rw [h1, List.replicate_succ, List.cons_append, List.drop_succ_cons]
        exact congrArg (List.cons '=') ih
      · simp [leadEqRun, if_neg hc]

theorem leadEqRun_eq_zero (s : List Char) (h : ∀ c ∈ s, c ≠ '=') :
    leadEqRun s = 0 := by
  cases s with
  | nil => rfl
  | cons c cs =>
      simp only [leadEqRun]
      rw [if_neg (h c (List.mem_cons_self c cs))]

theorem leadEqRun_replicate (n : Nat) :
    leadEqRun (List.replicate n '=') = n := by
  have := leadEqRun_replicate_append n []
  simpa using this

theorem rev_decomp (t : List Char) :
    t = (t.reverse.drop (trailEqRun t)).reverse ++
      List.replicate (trailEqRun t) '=' := by
  conv_lhs => rw [← t.reverse_reverse]
  conv_lhs => rw [replicate_append_drop_leadEqRun t.reverse]
  rw [List.reverse_append, List.reverse_replicate]
  rfl

theorem append_drop_length (u v : List Char) :
    (u ++ v).drop ((u ++ v).length - v.length) = v := by
  have h : (u ++ v).length - v.length = u.length := by simp
  rw [h, List.drop_left]

theorem trailEqRun_drop (t : List Char) :
    t.drop (t.length - trailEqRun t) = List.replicate (trailEqRun t) '=' := by
  have h2 := rev_decomp t
  have h3 := append_drop_length (t.reverse.drop (trailEqRun t)).reverse
      (List.replicate (trailEqRun t) '=')
  rw [← h2] at h3
  simpa using h3

theorem trailEqRun_decomp (t : List Char) :
    t = t.take (t.length - trailEqRun t) ++ List.replicate (trailEqRun t) '=' := by
  conv_lhs => rw [← List.take_append_drop (t.length - trailEqRun t) t]
  rw [trailEqRun_drop]

theorem trailEqRun_append_replicate (mid : List Char) (b : Nat)
    (h : ∀ c ∈ mid, c ≠ '=') :
    trailEqRun (mid ++ List.replicate b '=') = b := by
  rw [trailEqRun, List.reverse_append, List.reverse_replicate,
    leadEqRun_replicate_append,
    leadEqRun_eq_zero _ (fun c hc => h c (List.mem_reverse.mp hc))]
  omega

theorem getLast?_append_replicate_eq (l : List Char) (b : Nat) (hb : 1 ≤ b) :
    (l ++ List.replicate b '=').getLast? = some '=' := by
  obtain ⟨m, rfl⟩ : ∃ m, b = m + 1 := ⟨b - 1, by omega⟩
  rw [List.replicate_succ', ← List.append_assoc, List.getLast?_concat]

/-! ## Characterization of the regex match -/

theorem coreGroups_isSome_decomp (core : List Char)
    (h : (coreGroups core).isSome = true) :
    ∃ a mid b, 1 ≤ a ∧ 1 ≤ b ∧ (∀ c ∈ mid, c ≠ '=') ∧
      core = List.replicate a '=' ++ (mid ++ List.replicate b '=') := by
  unfold coreGroups at h
  by_cases h0 : leadEqRun core = 0
  · simp only [h0, if_pos rfl] at h
    simp at h
  · rw [if_neg h0] at h
    by_cases hall : leadEqRun core = core.length
    · rw [if_pos hall] at h
      by_cases h2 : 2 ≤ core.length
      · refine ⟨core.length - 1, [], 1, by omega, le_refl 1, by simp, ?_⟩
        rw [List.nil_append, ← List.replicate_add]
        have : core.length - 1 + 1 = core.length := by omega
        rw [this]
        exact eq_replicate_of_leadEqRun_eq_length core hall
      · rw [if_neg h2] at h
        simp at h
    · rw [if_neg hall] at h
      set t := core.drop (leadEqRun core) with ht
      by_cases hb : trailEqRun t = 0
      · rw [if_pos hb] at h
        simp at h
      · rw [if_neg hb] at h
        by_cases hmid : (t.take (t.length - trailEqRun t)).all (fun c => c != '=') = true
        · refine ⟨leadEqRun core, t.take (t.length - trailEqRun t), trailEqRun t,
            by omega, by omega, ?_, ?_⟩
          · intro c hc
            have := (List.all_eq_true.mp hmid) c hc
            simpa using this
          · rw [← trailEqRun_decomp t, ht]
            exact replicate_append_drop_leadEqRun core
        · rw [if_neg hmid] at h
          simp at h

theorem coreGroups_of_decomp_ne (a b : Nat) (m : Char) (ms : List Char)
    (ha : 1 ≤ a) (hb : 1 ≤ b) (hmid : ∀ c ∈ m :: ms, c ≠ '=') :
    coreGroups (List.replicate a '=' ++ ((m :: ms) ++ List.replicate b '=')) =
      some (a, b) := by
  have hm0 : m ≠ '=' := hmid m (List.mem_cons_self m ms)
  have hlead : leadEqRun (List.replicate a '=' ++ ((m :: ms) ++ List.replicate b '=')) = a := by
    rw [leadEqRun_replicate_append, List.cons_append]
    simp [leadEqRun, hm0]
  have hlen : (List.replicate a '=' ++ ((m :: ms) ++ List.replicate b '=')).length
      = a + (ms.length + 1 + b) := by
    simp
    omega
  have hdrop : (List.replicate a '=' ++ ((m :: ms) ++ List.replicate b '=')).drop a
      = (m :: ms) ++ List.replicate b '=' :=
    List.drop_left' (by simp)
  have htrail : trailEqRun ((m :: ms) ++ List.replicate b '=') = b :=
    trailEqRun_append_replicate _ b hmid
  have htake : ((m :: ms) ++ List.replicate b '=').take
      (((m :: ms) ++ List.replicate b '=').length - b) = m :: ms :=
    List.take_left' (by simp; omega)
  have hall : ((m :: ms).all (fun c => c != '=')) = true :=
    List.all_eq_true.mpr (fun c hc => by simpa using hmid c hc)
  simp only [coreGroups]
  rw [hlead, hdrop, htrail, htake, hall, hlen]
  rw [if_neg (by omega), if_neg (by omega), if_neg (by omega), if_pos rfl]

theorem coreGroups_of_decomp_nil (a b : Nat) (ha : 1 ≤ a) (hb : 1 ≤ b) :
    (coreGroups (List.replicate a '=' ++ ([] ++ List.replicate b '='))).isSome = true := by
  rw [List.nil_append, ← List.replicate_add]
  simp only [coreGroups]
  rw [leadEqRun_replicate, List.length_replicate]
  rw [if_neg (by omega), if_pos rfl, if_pos (by omega)]
  rfl

/-! ## The optional trailing space layer -/

theorem stripTrailSpace_eq_self (s : List Char) (h : s.getLast? ≠ some ' ') :
    stripTrailSpace s = s := by
  rw [stripTrailSpace, if_neg h]

theorem stripTrailSpace_concat_space (s : List Char) :
    stripTrailSpace (s ++ [' ']) = s := by
  rw [stripTrailSpace, if_pos (List.getLast?_concat s), List.dropLast_concat]

theorem exists_trailing_space_decomp (s : List Char) :
    ∃ sp, (sp = [] ∨ sp = [' ']) ∧ s = stripTrailSpace s ++ sp := by
  by_cases h : s.getLast? = some ' '
  · refine ⟨[' '], Or.inr rfl, ?_⟩
    rw [stripTrailSpace, if_pos h]
    exact (List.dropLast_append_getLast? ' ' h).symm
  · exact ⟨[], Or.inl rfl, by rw [stripTrailSpace, if_neg h, List.append_nil]⟩

theorem getLast?_core_ne_space (a b : Nat) (mid : List Char) (hb : 1 ≤ b) :
    (List.replicate a '=' ++ (mid ++ List.replicate b '=')).getLast? ≠ some ' ' := by
  rw [← List.append_assoc, getLast?_append_replicate_eq _ b hb]
  simp

theorem titleGroups_isSome_iff (s : List Char) :
    (titleGroups s).isSome = true ↔
      ∃ a mid b sp, 1 ≤ a ∧ 1 ≤ b ∧ (∀ c ∈ mid, c ≠ '=') ∧
        (sp = [] ∨ sp = [' ']) ∧
        s = List.replicate a '=' ++ mid ++ List.replicate b '=' ++ sp := by
  constructor
  · intro h
    rw [titleGroups] at h
    obtain ⟨sp, hsp, hs⟩ := exists_trailing_space_decomp s
    obtain ⟨a, mid, b, ha, hb, hmid, hcore⟩ :=
      coreGroups_isSome_decomp (stripTrailSpace s) h
    refine ⟨a, mid, b, sp, ha, hb, hmid, hsp, ?_⟩
    rw [hs, hcore]
    simp [List.append_assoc]
  · rintro ⟨a, mid, b, sp, ha, hb, hmid, hsp, hs⟩
    have hs2 : s = (List.replicate a '=' ++ (mid ++ List.replicate b '=')) ++ sp := by
      rw [hs]
      simp [List.append_assoc]
    have hcore : stripTrailSpace s = List.replicate a '=' ++ (mid ++ List.replicate b '=') := by
      rcases hsp with h1 | h1
      · rw [hs2, h1, List.append_nil]
        exact stripTrailSpace_eq_self _ (getLast?_core_ne_space a b mid hb)
      · rw [hs2, h1]
        exact stripTrailSpace_concat_space _
    rw [titleGroups, hcore]
    cases mid with
    | nil => exact coreGroups_of_decomp_nil a b ha hb
    | cons m ms =>
        rw [coreGroups_of_decomp_ne a b m ms ha hb hmid]
        rfl

theorem titleGroups_symmetric (a b : Nat) (m : Char) (ms : List Char)
    (ha : 1 ≤ a) (hb : 1 ≤ b) (hmid : ∀ c ∈ m :: ms, c ≠ '=') :
    titleGroups (List.replicate a '=' ++ (m :: ms) ++ List.replicate b '=') =
      some (a, b) := by
  have hs : (List.replicate a '=' ++ (m :: ms) ++ List.replicate b '=')
      = List.replicate a '=' ++ ((m :: ms) ++ List.replicate b '=') := by
    simp [List.append_assoc]
  rw [titleGroups, hs,
    stripTrailSpace_eq_self _ (getLast?_core_ne_space a b (m :: ms) hb),
    coreGroups_of_decomp_ne a b m ms ha hb hmid]

/-! ## Lemmas about the scanning state machine -/

theorem doe_implies_title (line : String) (h : detect_doe_header line = true) :
    detect_general_title line = true := by
  rw [detect_general_title]
  cases hg : titleGroups line.data with
  | none =>
      unfold detect_doe_header at h
      rw [hg] at h
      simp at h
  | some g => simp [hg]

theorem title_false_doe_false (line : String)
    (h : detect_general_title line = false) : detect_doe_header line = false := by
  cases hd : detect_doe_header line with
  | false => rfl
  | true =>
      rw [doe_implies_title line hd] at h
      exact Bool.noConfusion h

theorem scanAux_no_title (ls : List String) :
    ∀ i inSec c, (∀ l ∈ ls, detect_general_title l = false) →
      scanAux ls i inSec c = [] := by
  induction ls with
  | nil => intro i inSec c _; rfl
  | cons x xs ih =>
      intro i inSec c h
      have hx : detect_general_title x = false := h x (List.mem_cons_self x xs)
      have hxd : detect_doe_header x = false := title_false_doe_false x hx
      have hxs : ∀ l ∈ xs, detect_general_title l = false :=
        fun l hl => h l (List.mem_cons_of_mem x hl)
      cases inSec with
      | false =>
          simp [scanAux, hxd]
          exact ih _ _ _ hxs
      | true =>
          simp [scanAux, hx]
          split
          · exact ih _ _ _ hxs
          · exact ih _ _ _ hxs

theorem scanAux_append (pre suf : List String)
    (hsuf : ∀ l ∈ suf, detect_general_title l = false) :
    ∀ i inSec c, scanAux (pre ++ suf) i inSec c = scanAux pre i inSec c := by
  induction pre with
  | nil =>
      intro i inSec c
      rw [List.nil_append]
      exact scanAux_no_title suf i inSec c hsuf
  | cons x xs ih =>
      intro i inSec c
      rw [List.cons_append]
      simp only [scanAux, ih]

theorem scanAux_sorted_title (ls : List String) :
    ∀ i inSec c, List.Pairwise (· < ·) (scanAux ls i inSec c) ∧
      ∀ j ∈ scanAux ls i inSec c, i ≤ j ∧
        ∃ l, ls[j - i]? = some l ∧ detect_general_title l = true := by
  induction ls with
  | nil =>
      intro i inSec c
      simp [scanAux]
  | cons x xs ih =>
      intro i inSec c
      have H : ∀ s₁ c₁, List.Pairwise (· < ·) (scanAux xs (i + 1) s₁ c₁) ∧
          ∀ j ∈ scanAux xs (i + 1) s₁ c₁, i + 1 ≤ j ∧
            ∃ l, xs[j - (i + 1)]? = some l ∧ detect_general_title l = true :=
        fun s₁ c₁ => ih (i + 1) s₁ c₁
      have lift : ∀ s₁ c₁, ∀ j ∈ scanAux xs (i + 1) s₁ c₁, i ≤ j ∧
          ∃ l, (x :: xs)[j - i]? = some l ∧ detect_general_title l = true := by
        intro s₁ c₁ j hj
        obtain ⟨h1, l, hl, ht⟩ := (H s₁ c₁).2 j hj
        refine ⟨by omega, l, ?_, ht⟩
        have h2 : j - i = (j - (i + 1)) + 1 := by omega
        rw [h2, List.getElem?_cons_succ]
        exact hl
      have norec : ∀ s₁ c₁, List.Pairwise (· < ·) (scanAux xs (i + 1) s₁ c₁) ∧
          ∀ j ∈ scanAux xs (i + 1) s₁ c₁, i ≤ j ∧
            ∃ l, (x :: xs)[j - i]? = some l ∧ detect_general_title l = true :=
        fun s₁ c₁ => ⟨(H s₁ c₁).1, lift s₁ c₁⟩
      have rec₁ : ∀ s₁ c₁, detect_general_title x = true →
          List.Pairwise (· < ·) (i :: scanAux xs (i + 1) s₁ c₁) ∧
          ∀ j ∈ i :: scanAux xs (i + 1) s₁ c₁, i ≤ j ∧
            ∃ l, (x :: xs)[j - i]? = some l ∧ detect_general_title l = true := by
        intro s₁ c₁ hT
        constructor
        · rw [List.pairwise_cons]
          exact ⟨fun j hj => by have := ((H s₁ c₁).2 j hj).1; omega, (H s₁ c₁).1⟩
        · intro j hj
          rcases List.mem_cons.mp hj with rfl | hj₁
          · refine ⟨Nat.le_refl _, x, ?_, hT⟩
            rw [Nat.sub_self]
            simp
          · exact lift s₁ c₁ j hj₁
      cases inSec with
      | false =>
          cases hd : detect_doe_header x with
          | true => simpa [scanAux, hd] using norec true false
          | false => simpa [scanAux, hd] using norec false c
      | true =>
          cases hT : detect_general_title x with
          | true =>
              cases c with
              | true =>
                  cases hd : detect_doe_header x with
                  | true => simpa [scanAux, hT, hd] using norec true false
                  | false => simpa [scanAux, hT, hd] using norec true true
              | false =>
                  cases hd : detect_doe_header x with
                  | true => simpa [scanAux, hT, hd] using rec₁ true false hT
                  | false => simpa [scanAux, hT, hd] using rec₁ true false hT
          | false =>
              by_cases hstrip : 0 < (pyStrip x.data).length
              · simpa [scanAux, hT, hstrip] using norec true true
              · simpa [scanAux, hT, hstrip] using norec true c

theorem scanAux_false_lower (ls : List String) (i : Nat) (c : Bool) :
    ∀ j ∈ scanAux ls i false c, i + 1 ≤ j := by
  cases ls with
  | nil => intro j hj; simp [scanAux] at hj
  | cons x xs =>
      intro j hj
      cases hd : detect_doe_header x with
      | true =>
          simp [scanAux, hd] at hj
          exact ((scanAux_sorted_title xs (i + 1) true false).2 j hj).1
      | false =>
          simp [scanAux, hd] at hj
          exact ((scanAux_sorted_title xs (i + 1) false c).2 j hj).1

/-! ## Lemmas about insertion application and the bookmark -/

theorem pyInsert_length {α : Type} (i : Nat) (x : α) (l : List α) :
    (pyInsert i x l).length = l.length + 1 := by
  simp [pyInsert]
  omega

theorem applyPlanAux_eq_specAux (plan : List Nat) :
    ∀ k origLen (acc : List String), acc.length = origLen + k →
      applyPlanAux plan k acc = applyPlanSpecAux plan origLen acc := by
  induction plan with
  | nil => intro k origLen acc _; rfl
  | cons idx rest ih =>
      intro k origLen acc h
      simp only [applyPlanAux, applyPlanSpecAux]
      have hk : acc.length - origLen = k := by omega
      rw [hk]
      exact ih (k + 1) origLen _ (by rw [pyInsert_length]; omega)

theorem lastSeen_eq (titles : List String) : lastSeen titles = titles.getLastD "" := by
  have h : ∀ d : String, titles.foldl (fun _ t => t) d = titles.getLastD d := by
    induction titles with
    | nil => intro d; rfl
    | cons x xs ih =>
        intro d
        simp only [List.foldl_cons, List.getLastD_cons]
        exact ih x
  exact h ""

/-! # Claim theorems -/

/-- Claim C1 (code bug, evaluation at the failing input): the scanner never
resets `in_doe_header` to `False`, so after the non-DOE header "== A ==" at
index 1 it is still in section state with the content flag still false, and
it also records index 2 — an insertion inside the empty non-DOE section
"== A ==" — where the spec (and the function's own docstring) require the
section state to be exited so that only index 1 is recorded. -/
theorem c1_no_exit_on_non_doe_header :
    scanLines ["== Topic at DOE ==", "== A ==", "== B =="] = [1, 2] := by
  decide

/-- Claim C2 counterexample: a line "== Topic at DOE == " with a trailing
space matches the title pattern but is NOT a recognized DOE header, because
`group(0)` includes the trailing space, so the symmetric slice keeps a
trailing `'='` and the normalized name becomes "topic at doe =". -/
theorem c2_trailing_space_counterexample :
    detect_doe_header "== Topic at DOE == " = false ∧
    pyLower (pyStrip (pySliceSym "== Topic at DOE == ".data 2)) =
      "topic at doe =".data := by
  decide

/-- Claim C2 (amended): for a title line with no trailing space, of the
form leading run of `a ≥ 1` equals signs, a nonempty `'='`-free middle, and
a trailing run of `b ≥ 1` equals signs, the match groups are exactly the
two runs, the level is `min a b`, and the line is a recognized DOE header
iff the text strictly between the first `min a b` and last `min a b`
characters of the line, trimmed and lower-cased, is in
{"topic at doe", "doe relevance"}.  (A trailing space defeats recognition,
as the counterexample shows, because the slice is taken from the full
matched line including that space.) -/
theorem c2_doe_recognition_rule (a b : Nat) (m : Char) (ms : List Char)
    (ha : 1 ≤ a) (hb : 1 ≤ b) (hmid : ∀ c ∈ m :: ms, c ≠ '=') :
    detect_doe_header
        (String.mk (List.replicate a '=' ++ (m :: ms) ++ List.replicate b '=')) =
        true ↔
      pyLower (pyStrip (pySliceSym
        (List.replicate a '=' ++ (m :: ms) ++ List.replicate b '=') (min a b))) ∈
        doe_titles := by
  unfold detect_doe_header
  rw [show (String.mk (List.replicate a '=' ++ (m :: ms) ++
      List.replicate b '=')).data
      = List.replicate a '=' ++ (m :: ms) ++ List.replicate b '=' from rfl]
  rw [titleGroups_symmetric a b m ms ha hb hmid]
  exact List.elem_iff

/-- Witness for C2: the same header without the trailing space is
recognized. -/
theorem c2_doe_recognition_rule_witness :
    detect_doe_header
      (String.mk (List.replicate 2 '=' ++ (' ' :: "Topic at DOE ".data) ++
        List.replicate 2 '=')) = true :=
  (c2_doe_recognition_rule 2 2 ' ' "Topic at DOE ".data (by decide) (by decide)
    (by decide)).mpr (by decide)

/-- Claim C3 counterexample: the regex `[ ]?$` allows at most one trailing
space, so a header followed by two spaces, or by a tab, does not match the
title pattern, contrary to the claim's "any amount of trailing
whitespace". -/
theorem c3_trailing_whitespace_counterexample :
    detect_general_title "== Topic at DOE ==  " = false ∧
    detect_general_title "== Topic at DOE ==\t" = false := by
  decide

/-- Claim C3 (amended): a line matches the title pattern iff it consists of
a leading run of `'='` characters, non-`'='` text (possibly empty), and a
trailing run of `'='` characters, optionally followed by a single trailing
space (not a tab, and not more than one space). -/
theorem c3_title_pattern_characterization (line : String) :
    detect_general_title line = true ↔
      ∃ a mid b sp, 1 ≤ a ∧ 1 ≤ b ∧ (∀ c ∈ mid, c ≠ '=') ∧
        (sp = [] ∨ sp = [' ']) ∧
        line.data = List.replicate a '=' ++ mid ++ List.replicate b '=' ++ sp :=
  titleGroups_isSome_iff line.data

/-- Witness for C3: a concrete line matching via the characterization. -/
theorem c3_title_pattern_characterization_witness :
    detect_general_title "== x == " = true :=
  (c3_title_pattern_characterization "== x == ").mpr
    ⟨2, " x ".data, 2, [' '], by decide, by decide, by decide, Or.inr rfl,
      by decide⟩

/-- Claim C4: if the listing returned strictly fewer titles than the batch
size (including zero) the stored bookmark is the empty string; otherwise it
is the title of the last page processed in the batch (the last listed
title, since every listed page is processed). -/
theorem c4_bookmark_rule (titles : List String) :
    (titles.length < PAGES_TO_GO_THROUGH → runBookmark titles = "") ∧
    (PAGES_TO_GO_THROUGH ≤ titles.length →
      titles.getLast? = some (runBookmark titles)) := by
  constructor
  · intro h
    simp only [runBookmark]
    rw [if_pos h]
  · intro h
    have hne : titles ≠ [] := by
      intro he
      rw [he] at h
      simp [PAGES_TO_GO_THROUGH] at h
    have hg := List.getLast?_eq_getLast_of_ne_nil hne
    simp only [runBookmark]
    rw [if_neg (by omega), lastSeen_eq, List.getLastD_eq_getLast?, hg]
    rfl

/-- Witness for C4: a short batch resets the bookmark; a full batch of 25
stores the last title. -/
theorem c4_bookmark_rule_witness :
    runBookmark ["PageA", "PageB"] = "" ∧
    (List.replicate 24 "x" ++ ["PageZ"]).getLast? =
      some (runBookmark (List.replicate 24 "x" ++ ["PageZ"])) :=
  ⟨(c4_bookmark_rule ["PageA", "PageB"]).1 (by decide),
   (c4_bookmark_rule (List.replicate 24 "x" ++ ["PageZ"])).2 (by decide)⟩

/-- Claim C5: applying the insertion plan with an explicit running counter
(the source) agrees, for every ascending plan, with the spec's procedure of
inserting from lowest index to highest while re-reading the current length
of the growing copy each time. -/
theorem c5_insertion_refinement (plan : List Nat) (lines : List String)
    (_hasc : List.Pairwise (· < ·) plan) :
    applyPlan plan lines = applyPlanSpec plan lines :=
  applyPlanAux_eq_specAux plan 0 lines.length lines (by omega)

/-- Witness for C5: plan [2, 5] on an 8-line page; the placeholder lands at
final positions 2 and 6. -/
theorem c5_insertion_refinement_witness :
    applyPlan [2, 5] ["l0", "l1", "l2", "l3", "l4", "l5", "l6", "l7"] =
      applyPlanSpec [2, 5] ["l0", "l1", "l2", "l3", "l4", "l5", "l6", "l7"] ∧
    (applyPlan [2, 5] ["l0", "l1", "l2", "l3", "l4", "l5", "l6", "l7"])[2]? =
      some TEMPLATE_STR ∧
    (applyPlan [2, 5] ["l0", "l1", "l2", "l3", "l4", "l5", "l6", "l7"])[6]? =
      some TEMPLATE_STR :=
  ⟨c5_insertion_refinement [2, 5] _ (by decide), by decide, by decide⟩

/-- Claim C6: the end-to-end example; the scan reports exactly one
insertion point, before "== See Also ==", and applying it inserts the
placeholder there. -/
theorem c6_end_to_end :
    scanLines ["== Topic at DOE ==", "", "== See Also =="] = [2] ∧
    applyPlan [2] ["== Topic at DOE ==", "", "== See Also =="] =
      ["== Topic at DOE ==", "", "\x7b\x7bDOE content needed\x7d\x7d",
        "== See Also =="] := by
  decide

/-- Claim C7: a recognized DOE header, immediately another recognized DOE
header, then a third header line, then content (no further header lines)
yields exactly the two insertion points 1 and 2, at each empty section's
closing header. -/
theorem c7_two_empty_doe_sections (h1 h2 h3 : String) (rest : List String)
    (hd1 : detect_doe_header h1 = true) (hd2 : detect_doe_header h2 = true)
    (ht3 : detect_general_title h3 = true)
    (hrest : ∀ l ∈ rest, detect_general_title l = false) :
    scanLines (h1 :: h2 :: h3 :: rest) = [1, 2] := by
  have ht2 := doe_implies_title h2 hd2
  simp [scanLines, scanAux, hd1, hd2, ht2, ht3, ite_self]
  exact scanAux_no_title rest 3 true false hrest

/-- Witness for C7. -/
theorem c7_two_empty_doe_sections_witness :
    scanLines ["== Topic at DOE ==", "== DOE Relevance ==", "== Other ==",
      "some text"] = [1, 2] :=
  c7_two_empty_doe_sections _ _ _ _ (by decide) (by decide) (by decide)
    (by decide)

/-- Claim C8: lines after the last header line — in particular the body of
a trailing DOE section left open at end of input — contribute no insertion
point: end of input is never treated as a closing header, so the scan of
`pre ++ suf` is the scan of `pre` whenever `suf` has no header line. -/
theorem c8_trailing_section_no_insertion (pre suf : List String)
    (hsuf : ∀ l ∈ suf, detect_general_title l = false) :
    scanLines (pre ++ suf) = scanLines pre :=
  scanAux_append pre suf hsuf 0 false false

/-- Witness for C8: a page ending inside an empty DOE section records
nothing for it. -/
theorem c8_trailing_section_no_insertion_witness :
    scanLines (["intro text", "== Topic at DOE =="] ++ ["", "   "]) =
      scanLines ["intro text", "== Topic at DOE =="] :=
  c8_trailing_section_no_insertion ["intro text", "== Topic at DOE =="]
    ["", "   "] (by decide)

/-- Claim C9: the page is written back (with the fixed change comment) iff
the scan produced at least one insertion point; an empty plan yields no
save and the text is untouched (`main_function` returns `none`). -/
theorem c9_save_iff_insertions (lines : List String) :
    ((main_function lines).isSome = true ↔ scanLines lines ≠ []) ∧
    ∀ r, main_function lines = some r →
      r.2 = "Inserted the DOE content needed template." := by
  by_cases h : scanLines lines = []
  · constructor
    · simp [main_function, List.isEmpty_iff, h]
    · intro r hr
      simp [main_function, List.isEmpty_iff, h] at hr
  · constructor
    · simp [main_function, List.isEmpty_iff, h]
    · intro r hr
      simp [main_function, List.isEmpty_iff, h] at hr
      rw [← hr]

/-- Witness for C9: a page with one empty DOE section is saved with the
fixed comment. -/
theorem c9_save_iff_insertions_witness :
    (main_function ["== DOE Relevance ==", "== Links =="]).isSome = true ∧
    (applyPlan [1] ["== DOE Relevance ==", "== Links =="],
      "Inserted the DOE content needed template.").2 =
      "Inserted the DOE content needed template." :=
  ⟨(c9_save_iff_insertions ["== DOE Relevance ==", "== Links =="]).1.mpr
      (by decide),
   (c9_save_iff_insertions ["== DOE Relevance ==", "== Links =="]).2
      (applyPlan [1] ["== DOE Relevance ==", "== Links =="],
        "Inserted the DOE content needed template.") (by decide)⟩

/-- Claim C10: the insertion indices are strictly increasing, every index
is at least 1 (the first line is never an insertion point), and every
index points at a line matching the general title pattern. -/
theorem c10_plan_invariants (lines : List String) :
    List.Pairwise (· < ·) (scanLines lines) ∧
    ∀ j ∈ scanLines lines, 1 ≤ j ∧
      ∃ l, lines[j]? = some l ∧ detect_general_title l = true := by
  obtain ⟨hp, he⟩ := scanAux_sorted_title lines 0 false false
  refine ⟨hp, fun j hj => ?_⟩
  obtain ⟨h0, l, hl, ht⟩ := he j hj
  refine ⟨scanAux_false_lower lines 0 false j hj, l, ?_, ht⟩
  simpa using hl

/-- Witness for C10. -/
theorem c10_plan_invariants_witness :
    1 ≤ 1 ∧ ∃ l, (["== Topic at DOE ==", "== End =="])[1]? = some l ∧
      detect_general_title l = true :=
  (c10_plan_invariants ["== Topic at DOE ==", "== End =="]).2 1 (by decide)

end DoeBot
